import Mathlib

/-!
Verification development for the hub side of `react-chrome-redux-with-partials`
(`src/wrap-store/wrapStore.js`, re-exported by `src/index.js`).

The embedding is shallow: JavaScript objects that are used as string-keyed
records (Views, action payloads) become association lists `List (String × α)`
over an opaque value type `α` with decidable equality; the Redux store is
represented by the data the wrapped code actually consumes (its `dispatch`
function, the state snapshots delivered by `getState`, and the stream of
change notifications delivered through `subscribe`); promises are settled
outcomes; `chrome` transport callbacks become explicit event lists.

Pieces of the repository that `src/` does not contain (`shallowDiff.js`,
`serialization.js`, `constants.js`) are modelled from the spec and marked as
such in their doc comments.
-/

namespace Chromex

/-- A JS object viewed as a shallow record: an association list of top-level
fields.  (`View` in the spec's data model; also used for action payloads.) -/
abbrev View (α : Type) : Type := List (String × α)

/-- JS property read `obj[k]`: the first binding of key `k`, if any. -/
def vlookup {β : Type} (k : String) : List (String × β) → Option β
  | [] => none
  | e :: rest => if e.1 = k then some e.2 else vlookup k rest

/-- The keys of a shallow record, in order. -/
def keysOf {β : Type} (v : List (String × β)) : List String :=
  v.map Prod.fst

theorem keysOf_cons {β : Type} (e : String × β) (v : List (String × β)) :
    keysOf (e :: v) = e.1 :: keysOf v := rfl

theorem vlookup_eq_none_of_not_mem {β : Type} {j : String}
    {v : List (String × β)} (h : ¬ j ∈ keysOf v) : vlookup j v = none := by
  induction v with
  | nil => rfl
  | cons e rest ih =>
      rw [keysOf_cons] at h
      have he : ¬ e.1 = j := by
        intro hh
        exact h (by rw [← hh]; exact List.mem_cons_self _ _)
      rw [vlookup, if_neg he]
      exact ih (fun hm => h (List.mem_cons_of_mem _ hm))

theorem vlookup_isSome_of_mem {β : Type} {e : String × β}
    {v : List (String × β)} (h : e ∈ v) : (vlookup e.1 v).isSome = true := by
  induction v with
  | nil => cases h
  | cons f rest ih =>
      rw [vlookup]
      by_cases hf : f.1 = e.1
      · rw [if_pos hf]
        rfl
      · rcases List.mem_cons.mp h with h1 | h1
        · exact absurd (by rw [h1]) hf
        · rw [if_neg hf]
          exact ih h1

theorem vlookup_of_mem_nodup {β : Type} {e : String × β} {a : List (String × β)}
    (hnd : (keysOf a).Nodup) (hmem : e ∈ a) : vlookup e.1 a = some e.2 := by
  induction a with
  | nil => cases hmem
  | cons f rest ih =>
      rw [keysOf_cons] at hnd
      rcases List.mem_cons.mp hmem with h | h
      · subst h
        rw [vlookup, if_pos rfl]
      · have hf : ¬ f.1 = e.1 := by
          intro hk
          have hmemk : e.1 ∈ keysOf rest := List.mem_map.mpr ⟨e, h, rfl⟩
          have : f.1 ∈ keysOf rest := by rw [hk]; exact hmemk
          exact absurd this (List.nodup_cons.mp hnd).1
        rw [vlookup, if_neg hf]
        exact ih (List.nodup_cons.mp hnd).2 h

/-- A single patch operation, per the spec's data model:
`{op: create|update|delete, key, value?}`. -/
inductive PatchOp (α : Type) where
  | create (key : String) (value : α)
  | update (key : String) (value : α)
  | delete (key : String)
deriving DecidableEq, Repr

/-- The key a patch operation touches. -/
def opKey {α : Type} : PatchOp α → String
  | .create k _ => k
  | .update k _ => k
  | .delete k => k

/-- The binding a patch operation leaves at its key: `some v` for
create/update, `none` (absent) for delete. -/
def opVal {α : Type} : PatchOp α → Option α
  | .create _ v => some v
  | .update _ v => some v
  | .delete _ => none

variable {α : Type} [DecidableEq α]

/-- Modelled from the spec: `shallowDiff.js` is imported by the wrapping code
but its source is not part of `src/`.  Spec §4.1, per key of `next`: absent in
`previous` emits a `create` with the new value, present but value-unequal
(shallow top-level equality) emits an `update`, equal emits nothing. -/
def upsertOp (prev : View α) (e : String × α) : Option (PatchOp α) :=
  match vlookup e.1 prev with
  | none => some (.create e.1 e.2)
  | some w => if w = e.2 then none else some (.update e.1 e.2)

/-- Modelled from the spec (see `upsertOp`): the create/update pass of the
shallow diff, visiting the keys of `next` in encounter order. -/
def diffUpserts (prev : View α) : View α → List (PatchOp α)
  | [] => []
  | e :: rest =>
      match upsertOp prev e with
      | none => diffUpserts prev rest
      | some op => op :: diffUpserts prev rest

/-- Modelled from the spec (§4.1): the delete pass of the shallow diff — one
`delete` for every key of `prev` absent in `next`, in encounter order. -/
def diffDeletes : View α → View α → List (PatchOp α)
  | [], _ => []
  | e :: rest, next =>
      if (vlookup e.1 next).isSome then diffDeletes rest next
      else .delete e.1 :: diffDeletes rest next

/-- Modelled from the spec: the shallow diff, upserts first then deletes
(spec §4.1 bullet order). -/
def shallowDiff (prev next : View α) : List (PatchOp α) :=
  diffUpserts prev next ++ diffDeletes prev next

/-- Remove every binding of key `k` from a record. -/
def removeKey (k : String) : View α → View α
  | [] => []
  | e :: rest => if e.1 = k then removeKey k rest else e :: removeKey k rest

/-- Set key `k` to `val` (the record analogue of a JS property write). -/
def setKey (k : String) (val : α) (v : View α) : View α :=
  (k, val) :: removeKey k v

/-- Modelled from the spec: applying one patch operation to a View
(create/update set the key, delete removes it). -/
def applyOp (v : View α) : PatchOp α → View α
  | .create k val => setKey k val v
  | .update k val => setKey k val v
  | .delete k => removeKey k v

/-- Modelled from the spec: applying a Patch is applying its operations in
order. -/
def applyPatch (v : View α) (p : List (PatchOp α)) : View α :=
  p.foldl applyOp v

theorem vlookup_removeKey {k j : String} (v : View α) :
    vlookup j (removeKey k v) = if j = k then none else vlookup j v := by
  induction v with
  | nil => simp [removeKey, vlookup]
  | cons e rest ih =>
      rw [removeKey]
      by_cases hek : e.1 = k
      · rw [if_pos hek, ih]
        by_cases hjk : j = k
        · rw [if_pos hjk, if_pos hjk]
        · have hej : ¬ e.1 = j := by
            intro hh
            exact hjk (by rw [← hh, hek])
          rw [if_neg hjk, if_neg hjk, vlookup, if_neg hej]
      · rw [if_neg hek, vlookup]
        by_cases hej : e.1 = j
        · have hjk : ¬ j = k := by
            intro hh
            exact hek (by rw [hej, hh])
          rw [if_pos hej, if_neg hjk, vlookup, if_pos hej]
        · rw [if_neg hej, ih]
          by_cases hjk : j = k
          · rw [if_pos hjk, if_pos hjk]
          · rw [if_neg hjk, if_neg hjk, vlookup, if_neg hej]

theorem vlookup_setKey {k j : String} {val : α} (v : View α) :
    vlookup j (setKey k val v) = if k = j then some val else vlookup j v := by
  by_cases h : k = j
  · rw [setKey, vlookup, if_pos h, if_pos h]
  · have hj : ¬ j = k := fun hh => h hh.symm
    rw [setKey, vlookup, if_neg h, vlookup_removeKey, if_neg hj, if_neg h]

theorem vlookup_applyOp (v : View α) (op : PatchOp α) (j : String) :
    vlookup j (applyOp v op) =
      if opKey op = j then opVal op else vlookup j v := by
  cases op with
  | create k val => rw [applyOp, vlookup_setKey]; rfl
  | update k val => rw [applyOp, vlookup_setKey]; rfl
  | delete k =>
      by_cases h : k = j
      · subst h
        simp [applyOp, vlookup_removeKey, opKey, opVal]
      · have hj : ¬ j = k := fun hh => h hh.symm
        simp [applyOp, vlookup_removeKey, opKey, opVal, h, hj]

/-- The net effect a list of patch operations has on key `j`: `some r` when
some operation touches `j` (the last one wins, leaving binding `r`), `none`
when the key is untouched. -/
def lastMod {α : Type} (j : String) : List (PatchOp α) → Option (Option α)
  | [] => none
  | op :: rest =>
      match lastMod j rest with
      | some r => some r
      | none => if opKey op = j then some (opVal op) else none

theorem lastMod_cons_ne {α : Type} {j : String} {op : PatchOp α}
    (l : List (PatchOp α)) (h : ¬ opKey op = j) :
    lastMod j (op :: l) = lastMod j l := by
  rw [lastMod]
  cases hl : lastMod j l with
  | some r => rfl
  | none => rw [if_neg h]

theorem vlookup_applyPatch (v : View α) (p : List (PatchOp α)) (j : String) :
    vlookup j (applyPatch v p) =
      match lastMod j p with
      | some r => r
      | none => vlookup j v := by
  induction p generalizing v with
  | nil => rfl
  | cons op rest ih =>
      show vlookup j (applyPatch (applyOp v op) rest) = _
      rw [ih]
      cases hrest : lastMod j rest with
      | some r => rw [lastMod, hrest]
      | none =>
          rw [lastMod, hrest, vlookup_applyOp]
          by_cases h : opKey op = j
          · rw [if_pos h, if_pos h]
          · rw [if_neg h, if_neg h]

theorem lastMod_append {α : Type} (j : String) (l1 l2 : List (PatchOp α)) :
    lastMod j (l1 ++ l2) =
      match lastMod j l2 with
      | some r => some r
      | none => lastMod j l1 := by
  induction l1 with
  | nil =>
      cases h : lastMod j l2 with
      | some r => simp [lastMod, h]
      | none => simp [lastMod, h]
  | cons op rest ih =>
      show lastMod j (op :: (rest ++ l2)) = _
      rw [lastMod, ih]
      cases h : lastMod j l2 with
      | some r => rfl
      | none => rw [lastMod]

theorem upsertOp_eq_none {prev : View α} {e : String × α}
    (h : upsertOp prev e = none) : vlookup e.1 prev = some e.2 := by
  cases hv : vlookup e.1 prev with
  | none => simp [upsertOp, hv] at h
  | some w =>
      by_cases hw : w = e.2
      · rw [hw]
      · simp [upsertOp, hv, hw] at h

theorem upsertOp_eq_some {prev : View α} {e : String × α} {op : PatchOp α}
    (h : upsertOp prev e = some op) :
    opKey op = e.1 ∧ opVal op = some e.2 ∧ ¬ vlookup e.1 prev = some e.2 := by
  cases hv : vlookup e.1 prev with
  | none =>
      have h2 := h
      simp [upsertOp, hv] at h2
      subst h2
      exact ⟨rfl, rfl, fun hh => Option.noConfusion hh⟩
  | some w =>
      by_cases hw : w = e.2
      · have h2 := h
        simp [upsertOp, hv, hw] at h2
      · have h2 := h
        simp [upsertOp, hv, hw] at h2
        subst h2
        refine ⟨rfl, rfl, ?_⟩
        intro hh
        exact hw (Option.some.inj hh)

theorem lastMod_diffUpserts_none (a : View α) {b : View α} {j : String}
    (hj : vlookup j b = none) : lastMod j (diffUpserts a b) = none := by
  induction b with
  | nil => rfl
  | cons e rest ih =>
      have hej : ¬ e.1 = j := by
        intro hh
        rw [vlookup, if_pos hh] at hj
        exact Option.noConfusion hj
      have hrest : vlookup j rest = none := by
        rw [vlookup, if_neg hej] at hj
        exact hj
      cases hcase : upsertOp a e with
      | none =>
          simp only [diffUpserts, hcase]
          exact ih hrest
      | some op =>
          simp only [diffUpserts, hcase]
          rw [lastMod_cons_ne _ (by rw [(upsertOp_eq_some hcase).1]; exact hej)]
          exact ih hrest

theorem lastMod_diffUpserts (a : View α) (b : View α) (j : String)
    (hb : (keysOf b).Nodup) :
    lastMod j (diffUpserts a b) =
      match vlookup j b with
      | none => none
      | some v => if vlookup j a = some v then none else some (some v) := by
  induction b with
  | nil => rfl
  | cons e rest ih =>
      rw [keysOf_cons] at hb
      have hnd : (keysOf rest).Nodup := (List.nodup_cons.mp hb).2
      have hnotmem : ¬ e.1 ∈ keysOf rest := (List.nodup_cons.mp hb).1
      by_cases hej : e.1 = j
      · have hrest : vlookup j rest = none := by
          rw [← hej]
          exact vlookup_eq_none_of_not_mem hnotmem
        have hupper : lastMod j (diffUpserts a rest) = none :=
          lastMod_diffUpserts_none a hrest
        have hlb : vlookup j (e :: rest) = some e.2 := by
          rw [vlookup, if_pos hej]
        cases hcase : upsertOp a e with
        | none =>
            have hva : vlookup j a = some e.2 := by
              rw [← hej]
              exact upsertOp_eq_none hcase
            simp only [diffUpserts, hcase]
            rw [hupper, hlb]
            simp [hva]
        | some op =>
            obtain ⟨hkey, hval, hne⟩ := upsertOp_eq_some hcase
            have hva : ¬ vlookup j a = some e.2 := by
              rw [← hej]
              exact hne
            have hopj : opKey op = j := by rw [hkey]; exact hej
            simp only [diffUpserts, hcase]
            rw [lastMod, hupper, hlb]
            simp [hopj, hval, hva]
      · have hlb : vlookup j (e :: rest) = vlookup j rest := by
          rw [vlookup, if_neg hej]
        cases hcase : upsertOp a e with
        | none =>
            simp only [diffUpserts, hcase]
            rw [hlb]
            exact ih hnd
        | some op =>
            simp only [diffUpserts, hcase]
            rw [lastMod_cons_ne _ (by rw [(upsertOp_eq_some hcase).1]; exact hej),
              hlb]
            exact ih hnd

theorem lastMod_diffDeletes (a b : View α) (j : String) :
    lastMod j (diffDeletes a b) =
      if (vlookup j a).isSome = true ∧ vlookup j b = none then some none
      else none := by
  induction a with
  | nil => simp [diffDeletes, lastMod, vlookup]
  | cons e rest ih =>
      by_cases hkeep : (vlookup e.1 b).isSome = true
      · simp only [diffDeletes, if_pos hkeep]
        rw [ih]
        by_cases hej : e.1 = j
        · have hbne : ¬ vlookup j b = none := by
            rw [← hej]
            intro hh
            rw [hh] at hkeep
            exact Bool.noConfusion hkeep
          rw [if_neg (fun hc => hbne hc.2), if_neg (fun hc => hbne hc.2)]
        · rw [show vlookup j (e :: rest) = vlookup j rest from by
            rw [vlookup, if_neg hej]]
      · simp only [diffDeletes, if_neg hkeep]
        by_cases hej : e.1 = j
        · have hbj : vlookup j b = none := by
            rw [← hej]
            cases hv : vlookup e.1 b with
            | none => rfl
            | some w => rw [hv] at hkeep; exact absurd rfl hkeep
          have hja : vlookup j (e :: rest) = some e.2 := by
            rw [vlookup, if_pos hej]
          have hopj : opKey (PatchOp.delete e.1 : PatchOp α) = j := hej
          rw [lastMod, ih, hja]
          by_cases hrest : (vlookup j rest).isSome = true ∧ vlookup j b = none
          · rw [if_pos hrest]
            simp [hbj]
          · rw [if_neg hrest]
            simp [hopj, opVal, hbj]
        · have hja : vlookup j (e :: rest) = vlookup j rest := by
            rw [vlookup, if_neg hej]
          rw [lastMod_cons_ne _
              (show ¬ opKey (PatchOp.delete e.1 : PatchOp α) = j from hej),
            ih, hja]

theorem diffUpserts_self (a : View α) (ha : (keysOf a).Nodup) :
    diffUpserts a a = [] := by
  have hgen : ∀ l : View α, (∀ e, e ∈ l → upsertOp a e = none) →
      diffUpserts a l = [] := by
    intro l hl
    induction l with
    | nil => rfl
    | cons e rest ih =>
        rw [diffUpserts, hl e (List.mem_cons_self _ _)]
        exact ih (fun f hf => hl f (List.mem_cons_of_mem _ hf))
  refine hgen a (fun e he => ?_)
  simp [upsertOp, vlookup_of_mem_nodup ha he]

theorem diffDeletes_self (a : View α) : diffDeletes a a = [] := by
  have hgen : ∀ l : View α, (∀ e, e ∈ l → (vlookup e.1 a).isSome = true) →
      diffDeletes l a = [] := by
    intro l hl
    induction l with
    | nil => rfl
    | cons e rest ih =>
        rw [diffDeletes, if_pos (hl e (List.mem_cons_self _ _))]
        exact ih (fun f hf => hl f (List.mem_cons_of_mem _ hf))
  exact hgen a (fun e he => vlookup_isSome_of_mem he)

theorem shallowDiff_self_eq_nil (a : View α) (ha : (keysOf a).Nodup) :
    shallowDiff a a = [] := by
  rw [shallowDiff, diffUpserts_self a ha, diffDeletes_self a]
  rfl

theorem vlookup_applyPatch_shallowDiff (a b : View α)
    (hb : (keysOf b).Nodup) (j : String) :
    vlookup j (applyPatch a (shallowDiff a b)) = vlookup j b := by
  rw [vlookup_applyPatch, shallowDiff, lastMod_append,
    lastMod_diffDeletes, lastMod_diffUpserts a b j hb]
  cases hvb : vlookup j b with
  | none =>
      cases hva : vlookup j a with
      | none => simp [hva]
      | some w => simp [hva]
  | some v =>
      by_cases hva : vlookup j a = some v
      · simp [hva]
      · simp [hva]

/-- **C2.** For all Views `a` and `b` (JS objects: no duplicate top-level
keys), `shallowDiff a a` is the empty Patch, and applying the Patch
`shallowDiff a b` — its create/update/delete operations in order — to `a`
yields a View that agrees with `b` on every top-level key. -/
theorem shallowDiff_roundtrip (a b : View α)
    (ha : (keysOf a).Nodup) (hb : (keysOf b).Nodup) :
    shallowDiff a a = [] ∧
      ∀ j, vlookup j (applyPatch a (shallowDiff a b)) = vlookup j b :=
  ⟨shallowDiff_self_eq_nil a ha,
   fun j => vlookup_applyPatch_shallowDiff a b hb j⟩

def kA : String := "a"
def kB : String := "b"
def kC : String := "c"

def viewEx1 : View Nat := [(kA, 1), (kB, 2)]
def viewEx2 : View Nat := [(kB, 3), (kC, 4)]

/-- Witness for `shallowDiff_roundtrip` at concrete Views. -/
theorem shallowDiff_roundtrip_witness :
    (keysOf viewEx1).Nodup ∧ (keysOf viewEx2).Nodup ∧
      shallowDiff viewEx1 viewEx1 = [] ∧
      vlookup kB (applyPatch viewEx1 (shallowDiff viewEx1 viewEx2))
        = vlookup kB viewEx2 ∧
      vlookup kA (applyPatch viewEx1 (shallowDiff viewEx1 viewEx2))
        = vlookup kA viewEx2 :=
  ⟨by decide, by decide,
   (shallowDiff_roundtrip viewEx1 viewEx2 (by decide) (by decide)).1,
   (shallowDiff_roundtrip viewEx1 viewEx2 (by decide) (by decide)).2 kB,
   (shallowDiff_roundtrip viewEx1 viewEx2 (by decide) (by decide)).2 kA⟩

/-!
## The channel model (`connectState` in `wrapStore.js`)

A connected port is driven by the events the source registers handlers for:
Redux store-change notifications (`store.subscribe(patchState)`, modelled as
`ChanEvent.notify st` carrying the state `store.getState()` returns inside
`patchState`) and the port's disconnect event
(`port.onDisconnect.addListener(unsubscribe)`, modelled as
`ChanEvent.disconnect`).  The JS runtime is single-threaded, so a run of the
channel is a fold over the event list.  Each emitted `PATCH_STATE` message is
recorded as a `PatchRec` that carries, besides the posted diff, the cached
view it was computed against (`before`) and the freshly computed view
(`after`) as ghost data; the wire message is `recMsg`.

`serialization.js` is not part of `src/`; per spec §4.2 the serializer
defaults to an identity passthrough and is applied to message payloads only,
so messages are modelled unserialized (their `type`/`key` structure, which
the temporal claims are about, is unaffected).
-/

variable {σ : Type}

/-- A wire message posted on a port: `{type: STATE_TYPE, key, payload}` or
`{type: PATCH_STATE_TYPE, key, payload}` (`constants.js` is not part of
`src/`; the two distinct type tags are modelled as distinct constructors). -/
inductive Msg (α : Type) where
  | state (key : String) (payload : View α)
  | patchMsg (key : String) (payload : List (PatchOp α))
deriving DecidableEq, Repr

/-- The `key` field of a message (the selector name it concerns). -/
def msgKey {α : Type} : Msg α → String
  | .state k _ => k
  | .patchMsg k _ => k

/-- Whether a message is a full-snapshot `STATE` message. -/
def isStateMsg {α : Type} : Msg α → Bool
  | .state _ _ => true
  | .patchMsg _ _ => false

/-- One emitted patch, instrumented: the source posts
`{type: PATCH_STATE_TYPE, key: sKey, payload: diff}` where
`diff = shallowDiff(prevStates[sKey], newValue)`; `before` and `after` record
the two views the diff was computed from. -/
structure PatchRec (α : Type) where
  key : String
  before : View α
  after : View α
  diff : List (PatchOp α)
deriving DecidableEq, Repr

/-- The wire message of an emitted patch record. -/
def recMsg {α : Type} (r : PatchRec α) : Msg α :=
  .patchMsg r.key r.diff

/-- JS property write `cache[k] = v` on the `prevStates` object. -/
def updateCache (c : String → View α) (k : String) (v : View α) :
    String → View α :=
  fun j => if j = k then v else c j

/-- The body of `patchState` in the source: for each selector key in order,
recompute `newValue = selectors[sKey](state)`, diff it against
`prevStates[sKey]`; if the diff is non-empty, overwrite `prevStates[sKey]`
with `newValue` and post the patch message; otherwise do nothing.  The JS
`forEach` loop mutating `prevStates` is rendered as structural recursion
threading the cache. -/
def patchState (st : σ) (prev : String → View α) :
    List (String × (σ → View α)) → (String → View α) × List (PatchRec α)
  | [] => (prev, [])
  | p :: rest =>
      if shallowDiff (prev p.1) (p.2 st) = [] then patchState st prev rest
      else
        ((patchState st (updateCache prev p.1 (p.2 st)) rest).1,
          ⟨p.1, prev p.1, p.2 st, shallowDiff (prev p.1) (p.2 st)⟩ ::
            (patchState st (updateCache prev p.1 (p.2 st)) rest).2)

/-- The `prevStates` object right after connect:
`Object.keys(selectors).forEach((sKey) => prevStates[sKey] = selectors[sKey](state))`. -/
def initCache (st : σ) (selectors : List (String × (σ → View α))) :
    String → View α :=
  selectors.foldl (fun c p => updateCache c p.1 (p.2 st)) (fun _ => [])

/-- The initial full-snapshot messages the source posts at connect time, one
`{type: STATE_TYPE, key: sKey, payload: prevStates[sKey]}` per selector key. -/
def initialViews (st : σ) (selectors : List (String × (σ → View α))) :
    List (Msg α) :=
  selectors.map (fun p => Msg.state p.1 (initCache st selectors p.1))

/-- An event a connected channel reacts to: a store change notification
(carrying the state `store.getState()` then returns) or the port's
disconnect event. -/
inductive ChanEvent (σ : Type) where
  | notify (st : σ)
  | disconnect

/-- Per-channel state: whether the `patchState` listener is still subscribed
to the store, and the `prevStates` cache. -/
structure ChanState (α : Type) where
  subscribed : Bool
  cache : String → View α

/-- One event step of a connected channel: a store notification runs
`patchState` while subscribed and is a no-op after `unsubscribe`; the
disconnect event runs the registered `unsubscribe`. -/
def chanStep (selectors : List (String × (σ → View α))) (cs : ChanState α) :
    ChanEvent σ → ChanState α × List (PatchRec α)
  | .notify st =>
      if cs.subscribed = true then
        (⟨true, (patchState st cs.cache selectors).1⟩,
          (patchState st cs.cache selectors).2)
      else (cs, [])
  | .disconnect => (⟨false, cs.cache⟩, [])

/-- A channel's run over a list of events, collecting emitted patch records
in order. -/
def chanRun (selectors : List (String × (σ → View α))) (cs : ChanState α) :
    List (ChanEvent σ) → ChanState α × List (PatchRec α)
  | [] => (cs, [])
  | e :: evs =>
      ((chanRun selectors (chanStep selectors cs e).1 evs).1,
        (chanStep selectors cs e).2 ++
          (chanRun selectors (chanStep selectors cs e).1 evs).2)

/-- `connectState` from the source: ports whose name differs from the
configured `portName` are ignored; a matching port gets the initial `STATE`
messages and then the patch messages produced by its event run (the
subscription is made in the same handler invocation as the initial sends, so
no event can interleave). -/
def connectState (portName : String) (selectors : List (String × (σ → View α)))
    (portNm : String) (st₀ : σ) (evs : List (ChanEvent σ)) : List (Msg α) :=
  if portNm = portName then
    initialViews st₀ selectors ++
      ((chanRun selectors ⟨true, initCache st₀ selectors⟩ evs).2.map recMsg)
  else []

/-- `chainFrom v recs`: starting from last-sent view `v`, the recorded
patches form a chain — each patch was diffed exactly against the view left
by its predecessor (or `v` for the first), carries that diff, and is
non-empty. -/
def chainFrom (v : View α) : List (PatchRec α) → Prop
  | [] => True
  | r :: rs =>
      r.before = v ∧ r.diff = shallowDiff r.before r.after ∧
        ¬ r.diff = [] ∧ chainFrom r.after rs

/-- The view left after a chain of patches (its last `after`, or the start
view when no patch was emitted). -/
def lastAfter (v : View α) : List (PatchRec α) → View α
  | [] => v
  | r :: rs => lastAfter r.after rs

theorem chainFrom_append (v : View α) (l1 l2 : List (PatchRec α)) :
    chainFrom v (l1 ++ l2) ↔
      chainFrom v l1 ∧ chainFrom (lastAfter v l1) l2 := by
  induction l1 generalizing v with
  | nil => simp [chainFrom, lastAfter]
  | cons r rs ih => simp [chainFrom, lastAfter, ih, and_assoc]

theorem lastAfter_append (v : View α) (l1 l2 : List (PatchRec α)) :
    lastAfter v (l1 ++ l2) = lastAfter (lastAfter v l1) l2 := by
  induction l1 generalizing v with
  | nil => rfl
  | cons r rs ih => exact ih r.after

theorem patchState_chain (st : σ) (selectors : List (String × (σ → View α)))
    (prev : String → View α) (k : String) :
    chainFrom (prev k)
        (((patchState st prev selectors).2).filter (fun r => r.key == k)) ∧
      (patchState st prev selectors).1 k
        = lastAfter (prev k)
            (((patchState st prev selectors).2).filter (fun r => r.key == k)) := by
  induction selectors generalizing prev with
  | nil => exact ⟨trivial, rfl⟩
  | cons p rest ih =>
      by_cases hd : shallowDiff (prev p.1) (p.2 st) = []
      · simp only [patchState, if_pos hd]
        exact ih prev
      · simp only [patchState, if_neg hd]
        by_cases hk : p.1 = k
        · subst hk
          have hup : updateCache prev p.1 (p.2 st) p.1 = p.2 st := by
            simp [updateCache]
          obtain ⟨ihc, ihl⟩ := ih (updateCache prev p.1 (p.2 st))
          rw [hup] at ihc ihl
          rw [List.filter_cons]
          simp only [show ((⟨p.1, prev p.1, p.2 st,
            shallowDiff (prev p.1) (p.2 st)⟩ : PatchRec α).key == p.1) = true
            from by simp]
          exact ⟨⟨rfl, rfl, hd, ihc⟩, ihl⟩
        · have hkp : ¬ k = p.1 := fun hh => hk hh.symm
          have hup : updateCache prev p.1 (p.2 st) k = prev k := by
            simp [updateCache, hkp]
          obtain ⟨ihc, ihl⟩ := ih (updateCache prev p.1 (p.2 st))
          rw [hup] at ihc ihl
          rw [List.filter_cons]
          simp only [show ((⟨p.1, prev p.1, p.2 st,
            shallowDiff (prev p.1) (p.2 st)⟩ : PatchRec α).key == k) = false
            from by simp [hk]]
          exact ⟨ihc, ihl⟩

theorem chanRun_chain (selectors : List (String × (σ → View α)))
    (evs : List (ChanEvent σ)) (cs : ChanState α) (k : String) :
    chainFrom (cs.cache k)
        (((chanRun selectors cs evs).2).filter (fun r => r.key == k)) ∧
      (chanRun selectors cs evs).1.cache k
        = lastAfter (cs.cache k)
            (((chanRun selectors cs evs).2).filter (fun r => r.key == k)) := by
  induction evs generalizing cs with
  | nil => exact ⟨trivial, rfl⟩
  | cons e evs ih =>
      cases e with
      | notify st =>
          by_cases hsub : cs.subscribed = true
          · have hstep : chanStep selectors cs (ChanEvent.notify st)
                = (⟨true, (patchState st cs.cache selectors).1⟩,
                  (patchState st cs.cache selectors).2) := by
              simp [chanStep, hsub]
            obtain ⟨pc, pl⟩ := patchState_chain st selectors cs.cache k
            obtain ⟨ic, il⟩ :=
              ih (⟨true, (patchState st cs.cache selectors).1⟩ : ChanState α)
            simp only [chanRun, hstep, List.filter_append]
            rw [chainFrom_append, lastAfter_append, ← pl]
            exact ⟨⟨pc, ic⟩, il⟩
          · have hstep : chanStep selectors cs (ChanEvent.notify st)
                = (cs, []) := by
              simp [chanStep, hsub]
            obtain ⟨ic, il⟩ := ih cs
            simp only [chanRun, hstep, List.nil_append]
            exact ⟨ic, il⟩
      | disconnect =>
          have hstep : chanStep selectors cs ChanEvent.disconnect
              = (⟨false, cs.cache⟩, []) := rfl
          obtain ⟨ic, il⟩ := ih (⟨false, cs.cache⟩ : ChanState α)
          simp only [chanRun, hstep, List.nil_append]
          exact ⟨ic, il⟩

/-- **C3.** For a connected channel (initial cache = the views sent in the
initial `STATE` messages) and any selector name `k`, the emitted
`PATCH_STATE` records for `k` form a chain: each was diffed exactly against
the view last sent for `k` on this channel (the initial `STATE` payload for
the first, the previous patch's freshly computed view after that), carries
that non-empty diff as its payload, and the cached `prevStates[k]` after the
run is exactly the view last sent (it is replaced by the newly computed view
exactly when the diff is non-empty). -/
theorem patch_before_is_last_sent (selectors : List (String × (σ → View α)))
    (st₀ : σ) (evs : List (ChanEvent σ)) (k : String) :
    chainFrom (initCache st₀ selectors k)
        (((chanRun selectors ⟨true, initCache st₀ selectors⟩ evs).2).filter
          (fun r => r.key == k)) ∧
      (chanRun selectors ⟨true, initCache st₀ selectors⟩ evs).1.cache k
        = lastAfter (initCache st₀ selectors k)
            (((chanRun selectors ⟨true, initCache st₀ selectors⟩ evs).2).filter
              (fun r => r.key == k)) :=
  chanRun_chain selectors evs ⟨true, initCache st₀ selectors⟩ k

theorem patchState_not_mem (st : σ) (selectors : List (String × (σ → View α)))
    (prev : String → View α) (k : String) (hk : ¬ k ∈ keysOf selectors) :
    (((patchState st prev selectors).2).filter (fun r => r.key == k)) = [] ∧
      (patchState st prev selectors).1 k = prev k := by
  induction selectors generalizing prev with
  | nil => exact ⟨rfl, rfl⟩
  | cons p rest ih =>
      rw [keysOf_cons] at hk
      have hpk : ¬ p.1 = k := by
        intro hh
        exact hk (by rw [← hh]; exact List.mem_cons_self _ _)
      have hkrest : ¬ k ∈ keysOf rest :=
        fun hm => hk (List.mem_cons_of_mem _ hm)
      by_cases hd : shallowDiff (prev p.1) (p.2 st) = []
      · simp only [patchState, if_pos hd]
        exact ih prev hkrest
      · have hkp : ¬ k = p.1 := fun hh => hpk hh.symm
        have hup : updateCache prev p.1 (p.2 st) k = prev k := by
          simp [updateCache, hkp]
        obtain ⟨ihf, ihl⟩ := ih (updateCache prev p.1 (p.2 st)) hkrest
        rw [hup] at ihl
        simp only [patchState, if_neg hd]
        rw [List.filter_cons]
        simp only [show ((⟨p.1, prev p.1, p.2 st,
          shallowDiff (prev p.1) (p.2 st)⟩ : PatchRec α).key == k) = false
          from by simp [hpk]]
        exact ⟨ihf, ihl⟩

theorem patchState_empty_diff (st : σ)
    (selectors : List (String × (σ → View α))) (prev : String → View α)
    (k : String) (f : σ → View α) (hnd : (keysOf selectors).Nodup)
    (hf : vlookup k selectors = some f)
    (hd : shallowDiff (prev k) (f st) = []) :
    (((patchState st prev selectors).2).filter (fun r => r.key == k)) = [] ∧
      (patchState st prev selectors).1 k = prev k := by
  induction selectors generalizing prev with
  | nil => exact Option.noConfusion hf
  | cons p rest ih =>
      rw [keysOf_cons] at hnd
      by_cases hpk : p.1 = k
      · have hfp : f = p.2 := by
          rw [vlookup, if_pos hpk] at hf
          exact (Option.some.inj hf).symm
        subst hfp
        have hdhead : shallowDiff (prev p.1) (p.2 st) = [] := by
          rw [hpk]
          exact hd
        simp only [patchState, if_pos hdhead]
        refine patchState_not_mem st rest prev k ?_
        intro hm
        rw [← hpk] at hm
        exact absurd hm (List.nodup_cons.mp hnd).1
      · have hf' : vlookup k rest = some f := by
          rw [vlookup, if_neg hpk] at hf
          exact hf
        have hndr : (keysOf rest).Nodup := (List.nodup_cons.mp hnd).2
        by_cases hdp : shallowDiff (prev p.1) (p.2 st) = []
        · simp only [patchState, if_pos hdp]
          exact ih prev hndr hf' hd
        · have hkp : ¬ k = p.1 := fun hh => hpk hh.symm
          have hup : updateCache prev p.1 (p.2 st) k = prev k := by
            simp [updateCache, hkp]
          have hd2 : shallowDiff ((updateCache prev p.1 (p.2 st)) k) (f st) = [] := by
            rw [hup]
            exact hd
          obtain ⟨ihf, ihl⟩ := ih (updateCache prev p.1 (p.2 st)) hndr hf' hd2
          rw [hup] at ihl
          simp only [patchState, if_neg hdp]
          rw [List.filter_cons]
          simp only [show ((⟨p.1, prev p.1, p.2 st,
            shallowDiff (prev p.1) (p.2 st)⟩ : PatchRec α).key == k) = false
            from by simp [hpk]]
          exact ⟨ihf, ihl⟩

/-- **C4.** On a store-change notification of a subscribed (connected)
channel, if a registered selector's recomputed view yields an empty diff
against the channel's cached previous view for that selector name, then no
`PATCH_STATE` message for that selector name is posted on that notification
and the cached previous view for that name is left unchanged. -/
theorem no_patch_on_empty_diff (selectors : List (String × (σ → View α)))
    (cs : ChanState α) (st : σ) (k : String) (f : σ → View α)
    (hsub : cs.subscribed = true) (hnd : (keysOf selectors).Nodup)
    (hf : vlookup k selectors = some f)
    (hd : shallowDiff (cs.cache k) (f st) = []) :
    (((chanStep selectors cs (ChanEvent.notify st)).2.map recMsg).filter
        (fun m => msgKey m == k)) = [] ∧
      (chanStep selectors cs (ChanEvent.notify st)).1.cache k = cs.cache k := by
  have hstep : chanStep selectors cs (ChanEvent.notify st)
      = (⟨true, (patchState st cs.cache selectors).1⟩,
        (patchState st cs.cache selectors).2) := by
    simp [chanStep, hsub]
  obtain ⟨hfil, hcache⟩ :=
    patchState_empty_diff st selectors cs.cache k f hnd hf hd
  rw [hstep]
  constructor
  · have hcomp : ((patchState st cs.cache selectors).2.map recMsg).filter
        (fun m => msgKey m == k)
        = (((patchState st cs.cache selectors).2).filter
            (fun r => r.key == k)).map recMsg := by
      rw [List.filter_map]
      rfl
    rw [hcomp, hfil]
    rfl
  · exact hcache

def selEx : List (String × (View Nat → View Nat)) :=
  [(kA, fun st => [(kA, (vlookup kA st).getD 0)]),
   (kB, fun st => [(kB, (vlookup kB st).getD 0)])]

def cacheEx : String → View Nat :=
  updateCache (updateCache (fun _ => []) kA [(kA, 1)]) kB [(kB, 2)]

/-- Witness for `no_patch_on_empty_diff`: with cached views `{a:1}`, `{b:2}`
and new state `{a:1, b:3}`, selector `kA`'s diff is empty, so no patch
message for `kA` is posted and its cache entry is untouched. -/
theorem no_patch_on_empty_diff_witness :
    ((⟨true, cacheEx⟩ : ChanState Nat).subscribed = true ∧
        (keysOf selEx).Nodup ∧
        vlookup kA selEx = some (fun st => [(kA, (vlookup kA st).getD 0)]) ∧
        shallowDiff (cacheEx kA)
          ((fun st => [(kA, (vlookup kA st).getD 0)]) viewEx1) = []) ∧
      ((((chanStep selEx ⟨true, cacheEx⟩ (ChanEvent.notify viewEx1)).2.map
          recMsg).filter (fun m => msgKey m == kA)) = [] ∧
        (chanStep selEx ⟨true, cacheEx⟩
          (ChanEvent.notify viewEx1)).1.cache kA = cacheEx kA) :=
  ⟨⟨rfl, by decide, rfl, by decide⟩,
    no_patch_on_empty_diff selEx ⟨true, cacheEx⟩ viewEx1 kA
      (fun st => [(kA, (vlookup kA st).getD 0)]) rfl (by decide) rfl (by decide)⟩

theorem foldl_updateCache_not_mem (st : σ)
    (selectors : List (String × (σ → View α))) (c : String → View α)
    (k : String) (hk : ¬ k ∈ keysOf selectors) :
    (selectors.foldl (fun c2 p => updateCache c2 p.1 (p.2 st)) c) k = c k := by
  induction selectors generalizing c with
  | nil => rfl
  | cons p rest ih =>
      rw [keysOf_cons] at hk
      have hpk : ¬ k = p.1 := by
        intro hh
        exact hk (by rw [hh]; exact List.mem_cons_self _ _)
      rw [List.foldl_cons]
      rw [ih (updateCache c p.1 (p.2 st)) (fun hm => hk (List.mem_cons_of_mem _ hm))]
      simp [updateCache, hpk]

theorem initCache_lookup (st : σ) (selectors : List (String × (σ → View α)))
    (k : String) (f : σ → View α) (hnd : (keysOf selectors).Nodup)
    (hf : vlookup k selectors = some f) :
    initCache st selectors k = f st := by
  have hgen : ∀ c : String → View α,
      (selectors.foldl (fun c2 p => updateCache c2 p.1 (p.2 st)) c) k = f st := by
    induction selectors with
    | nil => exact Option.noConfusion hf
    | cons p rest ih =>
        intro c
        rw [keysOf_cons] at hnd
        rw [List.foldl_cons]
        by_cases hpk : p.1 = k
        · have hfp : f = p.2 := by
            rw [vlookup, if_pos hpk] at hf
            exact (Option.some.inj hf).symm
          have hnm : ¬ k ∈ keysOf rest := by
            intro hm
            rw [← hpk] at hm
            exact absurd hm (List.nodup_cons.mp hnd).1
          rw [foldl_updateCache_not_mem st rest _ k hnm]
          rw [hfp]
          simp [updateCache, hpk]
        · have hf' : vlookup k rest = some f := by
            rw [vlookup, if_neg hpk] at hf
            exact hf
          exact ih (List.nodup_cons.mp hnd).2 hf' _
  exact hgen _

theorem filter_initialViews (c : String → View α)
    (selectors : List (String × (σ → View α))) (k : String) (f : σ → View α)
    (hnd : (keysOf selectors).Nodup) (hf : vlookup k selectors = some f) :
    ((selectors.map (fun p => Msg.state p.1 (c p.1))).filter
        (fun m => msgKey m == k)) = [Msg.state k (c k)] := by
  have hnone : ∀ s : List (String × (σ → View α)), ¬ k ∈ keysOf s →
      ((s.map (fun p => Msg.state p.1 (c p.1))).filter
        (fun m => msgKey m == k)) = [] := by
    intro s hks
    induction s with
    | nil => rfl
    | cons p rest ih =>
        rw [keysOf_cons] at hks
        have hpk : ¬ p.1 = k := by
          intro hh
          exact hks (by rw [← hh]; exact List.mem_cons_self _ _)
        rw [List.map_cons, List.filter_cons]
        simp only [show (msgKey (Msg.state p.1 (c p.1)) == k) = false
          from by simp [msgKey, hpk]]
        exact ih (fun hm => hks (List.mem_cons_of_mem _ hm))
  induction selectors with
  | nil => exact Option.noConfusion hf
  | cons p rest ih =>
      rw [keysOf_cons] at hnd
      rw [List.map_cons, List.filter_cons]
      by_cases hpk : p.1 = k
      · have hnm : ¬ k ∈ keysOf rest := by
          intro hm
          rw [← hpk] at hm
          exact absurd hm (List.nodup_cons.mp hnd).1
        simp only [show (msgKey (Msg.state p.1 (c p.1)) == k) = true
          from by simp [msgKey, hpk]]
        rw [hnone rest hnm, hpk]
        simp
      · have hf' : vlookup k rest = some f := by
          rw [vlookup, if_neg hpk] at hf
          exact hf
        simp only [show (msgKey (Msg.state p.1 (c p.1)) == k) = false
          from by simp [msgKey, hpk]]
        exact ih (List.nodup_cons.mp hnd).2 hf'

/-- **C5.** On a channel that connects with a matching port name, among the
messages carrying a given registered selector name `k`, the first is the
(unique) initial `STATE` message with payload `selectors[k](initialState)`,
and every later message for `k` is a `PATCH_STATE`, never another `STATE`:
the `STATE` message for `k` is sent exactly once, at connect time, before
any patch for `k`. -/
theorem state_precedes_patches (portName : String)
    (selectors : List (String × (σ → View α))) (portNm : String) (st₀ : σ)
    (evs : List (ChanEvent σ)) (k : String) (f : σ → View α)
    (hport : portNm = portName) (hnd : (keysOf selectors).Nodup)
    (hf : vlookup k selectors = some f) :
    ((connectState portName selectors portNm st₀ evs).filter
        (fun m => msgKey m == k)).head? = some (Msg.state k (f st₀)) ∧
      ∀ m ∈ ((connectState portName selectors portNm st₀ evs).filter
        (fun m => msgKey m == k)).tail, isStateMsg m = false := by
  have hinit : ((initialViews st₀ selectors : List (Msg α)).filter
      (fun m => msgKey m == k)) = [Msg.state k (f st₀)] := by
    rw [initialViews, filter_initialViews _ selectors k f hnd hf,
      initCache_lookup st₀ selectors k f hnd hf]
  rw [connectState, if_pos hport, List.filter_append, hinit]
  constructor
  · rfl
  · intro m hm
    rw [List.cons_append, List.tail_cons, List.nil_append] at hm
    obtain ⟨r, _, hr⟩ :=
      List.mem_map.mp (List.mem_of_mem_filter hm)
    rw [← hr]
    rfl

theorem chanRun_unsubscribed (selectors : List (String × (σ → View α)))
    (evs : List (ChanEvent σ)) (cs : ChanState α)
    (h : cs.subscribed = false) : (chanRun selectors cs evs).2 = [] := by
  induction evs generalizing cs with
  | nil => rfl
  | cons e evs ih =>
      cases e with
      | notify st =>
          have hstep : chanStep selectors cs (ChanEvent.notify st) = (cs, []) := by
            simp [chanStep, h]
          simp only [chanRun, hstep, List.nil_append]
          exact ih cs h
      | disconnect =>
          have hstep : chanStep selectors cs ChanEvent.disconnect
              = (⟨false, cs.cache⟩, []) := rfl
          simp only [chanRun, hstep, List.nil_append]
          exact ih (⟨false, cs.cache⟩ : ChanState α) rfl

theorem chanRun_append (selectors : List (String × (σ → View α)))
    (l1 l2 : List (ChanEvent σ)) (cs : ChanState α) :
    chanRun selectors cs (l1 ++ l2)
      = ((chanRun selectors (chanRun selectors cs l1).1 l2).1,
        (chanRun selectors cs l1).2 ++
          (chanRun selectors (chanRun selectors cs l1).1 l2).2) := by
  induction l1 generalizing cs with
  | nil => rfl
  | cons e l1 ih =>
      rw [List.cons_append]
      show chanRun selectors cs (e :: (l1 ++ l2)) = _
      rw [chanRun, ih (chanStep selectors cs e).1]
      rw [show chanRun selectors cs (e :: l1)
        = ((chanRun selectors (chanStep selectors cs e).1 l1).1,
          (chanStep selectors cs e).2 ++
            (chanRun selectors (chanStep selectors cs e).1 l1).2) from rfl]
      rw [List.append_assoc]

/-- **C6.** After a channel's disconnect event fires, no further message —
`STATE` or `PATCH_STATE` — is posted on that channel: its whole message
trace equals the trace of the run truncated at the disconnect, whatever
state-change notifications follow (even ones whose diff against the last
emitted view would be non-empty). -/
theorem silent_after_disconnect (portName : String)
    (selectors : List (String × (σ → View α))) (portNm : String) (st₀ : σ)
    (evs1 evs2 : List (ChanEvent σ)) :
    connectState portName selectors portNm st₀
        (evs1 ++ ChanEvent.disconnect :: evs2)
      = connectState portName selectors portNm st₀
          (evs1 ++ [ChanEvent.disconnect]) := by
  by_cases hport : portNm = portName
  · rw [connectState, connectState, if_pos hport, if_pos hport]
    have hmid : ∀ cs : ChanState α,
        (chanRun selectors cs (ChanEvent.disconnect :: evs2)).2 = [] := by
      intro cs
      rw [show chanRun selectors cs (ChanEvent.disconnect :: evs2)
        = ((chanRun selectors (chanStep selectors cs ChanEvent.disconnect).1 evs2).1,
          (chanStep selectors cs ChanEvent.disconnect).2 ++
            (chanRun selectors
              (chanStep selectors cs ChanEvent.disconnect).1 evs2).2) from rfl]
      rw [show (chanStep selectors cs ChanEvent.disconnect : ChanState α × List (PatchRec α))
        = (⟨false, cs.cache⟩, []) from rfl]
      rw [List.nil_append]
      exact chanRun_unsubscribed selectors evs2 (⟨false, cs.cache⟩ : ChanState α) rfl
    rw [chanRun_append, chanRun_append]
    rw [hmid]
    have hone : ∀ cs : ChanState α,
        (chanRun selectors cs [ChanEvent.disconnect]).2 = [] := fun cs => rfl
    rw [hone]
  · rw [connectState, connectState, if_neg hport, if_neg hport]

def pnEx : String := "MY_APP"

/-- Witness for `state_precedes_patches` at a concrete connected channel. -/
theorem state_precedes_patches_witness :
    (pnEx = pnEx ∧ (keysOf selEx).Nodup ∧
        vlookup kA selEx = some (fun st => [(kA, (vlookup kA st).getD 0)])) ∧
      (((connectState pnEx selEx pnEx viewEx1 [ChanEvent.notify viewEx2]).filter
          (fun m => msgKey m == kA)).head?
          = some (Msg.state kA
              ((fun st => [(kA, (vlookup kA st).getD 0)]) viewEx1)) ∧
        ∀ m ∈ ((connectState pnEx selEx pnEx viewEx1
            [ChanEvent.notify viewEx2]).filter (fun m => msgKey m == kA)).tail,
          isStateMsg m = false) :=
  ⟨⟨rfl, by decide, rfl⟩,
    state_precedes_patches pnEx selEx pnEx viewEx1 [ChanEvent.notify viewEx2] kA
      (fun st => [(kA, (vlookup kA st).getD 0)]) rfl (by decide) rfl⟩

/-!
## The dispatch round-trip (`dispatchResponse` and `promiseResponder`)

`constants.js` is not part of `src/`, so the message type tags are modelled
as fixed string constants (their exact literals are immaterial: the code
only ever compares them for equality).  A dispatch outcome is a settled
promise; a synchronous throw of `store.dispatch` is an `Except.error`.
-/

/-- Modelled from the spec: the `DISPATCH` message type tag from
`constants.js` (not in `src/`). -/
def DISPATCH_TYPE : String := "chromex.dispatch"

/-- Modelled from the spec: `noop` from `serialization.js` (not in `src/`),
the identity-passthrough default serializer/deserializer. -/
def noop {β : Type} : β → β := fun x => x

/-- A JS `Error` object as the dispatch path uses it: it carries a `message`
string. -/
structure JsError where
  message : String
deriving DecidableEq, Repr

/-- A promise rejection reason as `promiseResponder` may see it: an
`Error`-like object (whose `.message` property is its message) or a plain
string (a JS string has no `message` property, so reading it yields
`undefined`, modelled as `none`). -/
inductive RejectReason where
  | err (message : String)
  | str (s : String)
deriving DecidableEq, Repr

/-- The JS property read `reason.message`. -/
def RejectReason.messageProp : RejectReason → Option String
  | .err m => some m
  | .str _ => none

/-- A settled dispatch result, after `Promise.resolve(dispatchResult)`:
fulfilled with a value or rejected with a reason. -/
inductive JsPromise (α : Type) where
  | fulfilled (v : α)
  | rejected (r : RejectReason)
deriving DecidableEq, Repr

/-- The Response Envelope `{error, value}` sent back for a dispatch; `none`
models a JS `null`/`undefined` field. -/
structure Response (α : Type) where
  error : Option String
  value : Option α
deriving DecidableEq, Repr

/-- `promiseResponder` from the source: on fulfilment reply
`{error: null, value: res}`; on rejection reply
`{error: err.message, value: null}` (and log). -/
def promiseResponder {α : Type} : JsPromise α → Response α
  | .fulfilled v => ⟨none, some v⟩
  | .rejected r => ⟨r.messageProp, none⟩

/-- A message arriving on `chrome.runtime.onMessage`:
`{type, portName, payload}`. -/
structure DispatchRequest (α : Type) where
  type : String
  portName : String
  payload : View α
deriving DecidableEq, Repr

def senderKey : String := "_sender"

/-- `dispatchResponse` from the source, run on the (already deserialized)
request: if the request matches `DISPATCH_TYPE` and the configured port
name, build the action `Object.assign({}, request.payload, {_sender: sender})`,
dispatch it — a synchronous throw `e` is caught, logged, and converted into
`Promise.reject(e.message)` (a rejection whose reason is the *string*
`e.message`) — and hand the settled result to the responder, which produces
exactly one Response Envelope.  The result is the dispatched action together
with that response; `none` models the handler ignoring a non-matching
message. -/
def dispatchResponse {α : Type} [DecidableEq α] (portName : String)
    (dispatch : View α → Except JsError (JsPromise α))
    (responder : JsPromise α → Response α)
    (req : DispatchRequest α) (sender : α) : Option (View α × Response α) :=
  if req.type = DISPATCH_TYPE ∧ req.portName = portName then
    some (setKey senderKey sender req.payload,
      responder
        (match dispatch (setKey senderKey sender req.payload) with
          | .ok p => p
          | .error e => .rejected (.str e.message)))
  else none

/-- `shouldDeserialize` from the source. -/
def shouldDeserialize {α : Type} (portName : String)
    (req : DispatchRequest α) : Prop :=
  req.type = DISPATCH_TYPE ∧ req.portName = portName

instance {α : Type} (portName : String) (req : DispatchRequest α) :
    Decidable (shouldDeserialize portName req) :=
  instDecidableAnd

/-- Modelled from the spec (§4.2): `withDeserializer` from
`serialization.js` (not in `src/`) applies the deserializer exactly once to
the incoming message payload when `shouldDeserialize` holds, before the
wrapped listener runs. -/
def handleDispatchMessage {α : Type} [DecidableEq α] (portName : String)
    (deserializer : View α → View α)
    (dispatch : View α → Except JsError (JsPromise α))
    (responder : JsPromise α → Response α)
    (req : DispatchRequest α) (sender : α) : Option (View α × Response α) :=
  dispatchResponse portName dispatch responder
    (if shouldDeserialize portName req then
      ⟨req.type, req.portName, deserializer req.payload⟩
    else req) sender

def pnTest : String := "test"
def boomMsg : String := "boom"
def kType : String := "type"
def kX : String := "X"
def senderEx : String := "tab-7"

/-- A store whose `dispatch` throws `Error("boom")` synchronously. -/
def dispatchBoom : View String → Except JsError (JsPromise String) :=
  fun _ => .error ⟨boomMsg⟩

/-- The dispatch request `{type: DISPATCH_TYPE, portName: "test",
payload: {type: "X"}}`. -/
def reqBoom : DispatchRequest String :=
  ⟨DISPATCH_TYPE, pnTest, [(kType, kX)]⟩

/-- **C1** (code bug).  When `store.dispatch` throws `Error("boom")`
synchronously, the handler does not re-throw and delivers exactly one
Response Envelope with `value: null` — but its `error` field is **not** the
thrown error's message: the catch block rejects with the *string*
`e.message`, and `promiseResponder` then reads `.message` of that string,
which is `undefined` (`none`), not `"boom"`. -/
theorem dispatch_throw_error_undefined :
    handleDispatchMessage pnTest noop dispatchBoom promiseResponder
        reqBoom senderEx
      = some (setKey senderKey senderEx reqBoom.payload,
          (⟨none, none⟩ : Response String)) ∧
      ¬ (⟨none, none⟩ : Response String).error = some boomMsg := by
  constructor
  · rfl
  · intro h
    exact Option.noConfusion h

/-- **C8.** For every dispatch request that passes the type and port-name
checks, the dispatched action is the deserialized payload shallow-merged
with `_sender: sender`: it agrees with the deserialized payload on every
top-level field other than `_sender`, and its `_sender` field is the
transport-supplied sender metadata.  (The source builds the action with
`Object.assign({}, payload, ...)` into a fresh object; the pure embedding
reflects that the request's own payload value is left untouched.) -/
theorem dispatch_action_augments {α : Type} [DecidableEq α] (portName : String)
    (deserializer : View α → View α)
    (dispatch : View α → Except JsError (JsPromise α))
    (responder : JsPromise α → Response α)
    (req : DispatchRequest α) (sender : α)
    (h1 : req.type = DISPATCH_TYPE) (h2 : req.portName = portName) :
    (∃ resp, handleDispatchMessage portName deserializer dispatch responder
        req sender
        = some (setKey senderKey sender (deserializer req.payload), resp)) ∧
      (∀ j, ¬ j = senderKey →
        vlookup j (setKey senderKey sender (deserializer req.payload))
          = vlookup j (deserializer req.payload)) ∧
      vlookup senderKey (setKey senderKey sender (deserializer req.payload))
        = some sender := by
  refine ⟨?_, ?_, ?_⟩
  · rw [handleDispatchMessage,
      if_pos (show shouldDeserialize portName req from ⟨h1, h2⟩),
      dispatchResponse,
      if_pos (show (⟨req.type, req.portName, deserializer req.payload⟩ :
          DispatchRequest α).type = DISPATCH_TYPE ∧
          (⟨req.type, req.portName, deserializer req.payload⟩ :
            DispatchRequest α).portName = portName from ⟨h1, h2⟩)]
    exact ⟨_, rfl⟩
  · intro j hj
    rw [vlookup_setKey, if_neg (fun hh => hj hh.symm)]
  · rw [vlookup_setKey, if_pos rfl]

def reqC8 : DispatchRequest Nat := ⟨DISPATCH_TYPE, pnTest, [(kA, 5)]⟩

def dispatchNat : View Nat → Except JsError (JsPromise Nat) :=
  fun _ => .ok (.fulfilled 0)

/-- Witness for `dispatch_action_augments` at a concrete request. -/
theorem dispatch_action_augments_witness :
    (reqC8.type = DISPATCH_TYPE ∧ reqC8.portName = pnTest) ∧
      ((∃ resp, handleDispatchMessage pnTest noop dispatchNat promiseResponder
          reqC8 9
          = some (setKey senderKey 9 (noop reqC8.payload), resp)) ∧
        (∀ j, ¬ j = senderKey →
          vlookup j (setKey senderKey 9 (noop reqC8.payload))
            = vlookup j (noop reqC8.payload)) ∧
        vlookup senderKey (setKey senderKey 9 (noop reqC8.payload))
          = some 9) :=
  ⟨⟨rfl, rfl⟩,
    dispatch_action_augments pnTest noop dispatchNat promiseResponder
      reqC8 9 rfl rfl⟩

/-- **C10.** The `_sender` field of every dispatched action is determined
solely by the transport-supplied sender metadata and never by the
proxy-supplied payload: any two requests passing the checks with identical
sender metadata yield actions whose `_sender` is that same metadata,
whatever (different) `_sender` values their payloads contained — the
payload's `_sender` is always overwritten. -/
theorem sender_overwritten {α : Type} [DecidableEq α] (portName : String)
    (deserializer : View α → View α)
    (dispatch : View α → Except JsError (JsPromise α))
    (responder : JsPromise α → Response α)
    (req1 req2 : DispatchRequest α) (sender : α)
    (h1 : req1.type = DISPATCH_TYPE) (h2 : req1.portName = portName)
    (h3 : req2.type = DISPATCH_TYPE) (h4 : req2.portName = portName) :
    (handleDispatchMessage portName deserializer dispatch responder
        req1 sender).map (fun p => vlookup senderKey p.1)
      = some (some sender) ∧
      (handleDispatchMessage portName deserializer dispatch responder
        req2 sender).map (fun p => vlookup senderKey p.1)
      = some (some sender) := by
  have hgen : ∀ req : DispatchRequest α, req.type = DISPATCH_TYPE →
      req.portName = portName →
      (handleDispatchMessage portName deserializer dispatch responder
        req sender).map (fun p => vlookup senderKey p.1)
      = some (some sender) := by
    intro req ha hb
    rw [handleDispatchMessage,
      if_pos (show shouldDeserialize portName req from ⟨ha, hb⟩),
      dispatchResponse,
      if_pos (show (⟨req.type, req.portName, deserializer req.payload⟩ :
          DispatchRequest α).type = DISPATCH_TYPE ∧
          (⟨req.type, req.portName, deserializer req.payload⟩ :
            DispatchRequest α).portName = portName from ⟨ha, hb⟩)]
    rw [Option.map_some']
    rw [vlookup_setKey, if_pos rfl]
  exact ⟨hgen req1 h1 h2, hgen req2 h3 h4⟩

def reqC10a : DispatchRequest Nat :=
  ⟨DISPATCH_TYPE, pnTest, [(senderKey, 100), (kA, 1)]⟩

def reqC10b : DispatchRequest Nat :=
  ⟨DISPATCH_TYPE, pnTest, [(senderKey, 200)]⟩

/-- Witness for `sender_overwritten`: two requests with the same sender but
different payload `_sender` values both dispatch with `_sender = 9`. -/
theorem sender_overwritten_witness :
    (¬ vlookup senderKey reqC10a.payload = vlookup senderKey reqC10b.payload) ∧
      (reqC10a.type = DISPATCH_TYPE ∧ reqC10a.portName = pnTest ∧
        reqC10b.type = DISPATCH_TYPE ∧ reqC10b.portName = pnTest) ∧
      ((handleDispatchMessage pnTest noop dispatchNat promiseResponder
          reqC10a 9).map (fun p => vlookup senderKey p.1) = some (some 9) ∧
        (handleDispatchMessage pnTest noop dispatchNat promiseResponder
          reqC10b 9).map (fun p => vlookup senderKey p.1) = some (some 9)) :=
  ⟨by decide, ⟨rfl, rfl, rfl, rfl⟩,
    sender_overwritten pnTest noop dispatchNat promiseResponder
      reqC10a reqC10b 9 rfl rfl rfl rfl⟩

/-!
## The wrap operations (`wrapStoreSelectors` and the default export)

Configuration validation happens synchronously, before any listener is
registered: the model returns `Except.error` for a throw, and only the
success value carries the installed handler behaviours.
-/

/-- A configuration option that in JS may be absent (`undefined`, taking the
declared default), a function value, or present but not a function. -/
inductive FnOpt (φ : Type) where
  | missing
  | fn (f : φ)
  | notFn
deriving DecidableEq

/-- Resolve an option against its destructuring default, then apply the
source's `typeof x !== 'function'` check: `none` means the check fails
(the option is present but not a function). -/
def FnOpt.resolve {φ : Type} (dflt : φ) : FnOpt φ → Option φ
  | .missing => some dflt
  | .fn f => some f
  | .notFn => none

/-- An outgoing message payload (a full View or a Patch) — the serializer's
domain. -/
inductive MsgBody (α : Type) where
  | view (v : View α)
  | patch (p : List (PatchOp α))
deriving DecidableEq

/-- The options object of `wrapStoreSelectors` / `wrapStore`.  `portName` is
`none` when absent; the source's JS truthiness check `!portName` also
treats a present empty string as falsy. -/
structure WrapOptions (α : Type) where
  portName : Option String
  dispatchResponder : Option (JsPromise α → Response α)
  serializer : FnOpt (MsgBody α → MsgBody α)
  deserializer : FnOpt (View α → View α)

/-- What a successful wrap sets up: the dispatch message handler (attached
to `chrome.runtime.onMessage` and, when supported, `onMessageExternal`) and
the connect handler driving each connecting port's channel (attached to
`onConnect` and, when supported, `onConnectExternal`). -/
structure HubHandlers (σ α : Type) where
  dispatchHandler : DispatchRequest α → α → Option (View α × Response α)
  channel : String → σ → List (ChanEvent σ) → List (Msg α)

def errPortName : String := "portName is required in options"
def errSerializer : String := "serializer must be a function"
def errDeserializer : String := "deserializer must be a function"
def strEmpty : String := ""

/-- `wrapStoreSelectors` from the source: validate the options in order —
falsy `portName`, then non-function `serializer`, then non-function
`deserializer`, each throwing synchronously — default the dispatch
responder to `promiseResponder`, and install the dispatch and connect
handlers.  Listener registration happens only after all checks pass. -/
def wrapStoreSelectors {σ α : Type} [DecidableEq α]
    (dispatch : View α → Except JsError (JsPromise α))
    (selectors : List (String × (σ → View α))) (opts : WrapOptions α) :
    Except String (HubHandlers σ α) :=
  if opts.portName = none ∨ opts.portName = some strEmpty then
    .error errPortName
  else
    match FnOpt.resolve noop opts.serializer with
    | none => .error errSerializer
    | some _ =>
      match FnOpt.resolve noop opts.deserializer with
      | none => .error errDeserializer
      | some deser =>
        .ok ⟨fun req sender =>
            handleDispatchMessage (opts.portName.getD strEmpty) deser dispatch
              (opts.dispatchResponder.getD promiseResponder) req sender,
          fun portNm st₀ evs =>
            connectState (opts.portName.getD strEmpty) selectors portNm st₀ evs⟩

/-- Whether an `Except` is an error (the wrap threw). -/
def isError {ε β : Type} : Except ε β → Bool
  | .error _ => true
  | .ok _ => false

def optsEmptyPort : WrapOptions Nat :=
  ⟨some strEmpty, none, FnOpt.missing, FnOpt.missing⟩

/-- **C7 counterexample.**  An options object whose `portName` is *present*
(the empty string) with defaulted (hence function-valued) serializer and
deserializer still makes `wrapStoreSelectors` throw: the source checks JS
truthiness (`!portName`), not mere presence. -/
theorem wrap_empty_portName_throws :
    (optsEmptyPort.portName).isSome = true ∧
      optsEmptyPort.serializer = FnOpt.missing ∧
      optsEmptyPort.deserializer = FnOpt.missing ∧
      wrapStoreSelectors dispatchNat selEx optsEmptyPort
        = Except.error errPortName :=
  ⟨rfl, rfl, rfl, rfl⟩

/-- **C7 (amended).** `wrapStoreSelectors` raises an error synchronously at
wrap time — before any listener is registered; handlers exist only in the
success value — exactly when `portName` is absent *or empty* (JS
falsiness), or the serializer option is present but not a function, or the
deserializer option is present but not a function.  With a present
non-empty `portName` and function-valued (or defaulted) serializer and
deserializer it does not throw. -/
theorem wrap_error_iff {σ α : Type} [DecidableEq α]
    (dispatch : View α → Except JsError (JsPromise α))
    (selectors : List (String × (σ → View α))) (opts : WrapOptions α) :
    isError (wrapStoreSelectors dispatch selectors opts) = true ↔
      (opts.portName = none ∨ opts.portName = some strEmpty
        ∨ opts.serializer = FnOpt.notFn ∨ opts.deserializer = FnOpt.notFn) := by
  rcases opts with ⟨pn, dr, ser, deser⟩
  by_cases hpn : pn = none ∨ pn = some strEmpty
  · rw [wrapStoreSelectors, if_pos hpn]
    rcases hpn with hpn | hpn <;> simp [isError, hpn]
  · rw [wrapStoreSelectors, if_neg hpn]
    rw [not_or] at hpn
    cases ser <;> cases deser <;>
      simp [FnOpt.resolve, isError, hpn.1, hpn.2]

/-- Modelled from the spec: the default selector key from `constants.js`
(not in `src/`); its exact literal is immaterial — the code only uses it as
the fixed key of the identity selector. -/
def DEFAULT_SELECTOR : String := "all"

/-- The default export (`wrapStore`) from the source: wrap with a
single-entry selector map binding the default selector key to the identity
function over the whole state. -/
def wrapStore {α : Type} [DecidableEq α]
    (dispatch : View α → Except JsError (JsPromise α))
    (opts : WrapOptions α) : Except String (HubHandlers (View α) α) :=
  wrapStoreSelectors dispatch [(DEFAULT_SELECTOR, fun st => st)] opts

/-- **C9.** For every store and options object, the non-selector wrap
operation equals `wrapStoreSelectors` applied to the single-entry selector
map `{[DEFAULT_SELECTOR]: state => state}` — the same `Except` value, hence
the same throw behaviour, the same dispatch handler, and the same channel
message traces; in particular, on success a connecting channel's initial
`STATE` message carries the whole state under the default selector key. -/
theorem wrapStore_eq_selectors_identity {α : Type} [DecidableEq α]
    (dispatch : View α → Except JsError (JsPromise α))
    (opts : WrapOptions α) :
    wrapStore dispatch opts
        = wrapStoreSelectors dispatch [(DEFAULT_SELECTOR, fun st => st)] opts ∧
      ∀ st₀ : View α,
        initialViews st₀ [(DEFAULT_SELECTOR, fun st => st)]
          = [Msg.state DEFAULT_SELECTOR st₀] :=
  ⟨rfl, fun st₀ => by simp [initialViews, initCache, updateCache]⟩

end Chromex
